import Mathlib

/-!
Shallow embedding of `src/deps.py`: the dependency-graph core (`Dependency`,
`Node`, `DepGraph`) and the signature-based extraction step
(`extract_dependencies`), together with proofs of the specification's claims.

Modelling conventions:
* Python objects are compared by identity in the graph (records carry no
  `__eq__`, so `set` membership, `dict` values and the `is` checks in the
  queries all use object identity).  A `Node` therefore carries an `id`
  field: two distinct Python objects with equal fields are modelled by two
  values differing in `id`, and Lean equality on `Node` models Python `is`.
* `Dependency` values are modelled structurally (factory, type); the graph
  never compares `Dependency` objects, only the `type` field (as a dict key).
* Arbitrary Python objects (types such as `int`, callables such as a factory
  function, and the `inspect.Parameter.empty` sentinel) are modelled by
  `PyValue`.
* Python `dict`s become association lists (key occurring at most once,
  insertion order kept, as in CPython); Python `set`s become lists without
  duplicates, built only through `setAdd` (membership is what matters).
* A raising method becomes a function into `Except PyError _`; the error
  constructor records the Python exception class (`KeyError` for dict
  lookup, `AssertionError` for a failed `assert`).  In every raising path of
  the source the raise happens before any mutation, so an `error` result
  leaves the (functional) graph state untouched.
-/

/-- An opaque-to-the-graph Python object: the `inspect.Parameter.empty`
sentinel, or any other object identified by its identity. -/
inductive PyValue where
  | empty : PyValue
  | obj : Nat → PyValue
deriving DecidableEq, Repr

/-- Source `class Dependency`: `factory` and `type` slots, in source order.
`provide` is a bare factory call and is not modelled (no evaluation). -/
structure Dependency where
  factory : PyValue
  type : PyValue
deriving DecidableEq, Repr

/-- Source `class Node`: `name` and `dependency_type` slots; `id` models Python
object identity (see module docstring). -/
structure Node where
  id : Nat
  name : String
  dependency_type : Dependency
deriving DecidableEq, Repr

/-- The Python exception class an operation raises with. -/
inductive PyError where
  | keyError : PyError
  | assertionError : PyError
deriving DecidableEq, Repr

/-- Python `set.add`: insert unless already a member. -/
def setAdd {α : Type} [DecidableEq α] (x : α) (s : List α) : List α :=
  if x ∈ s then s else x :: s

/-- Python dict lookup `d[k]` (as an `Option`) for the name index. -/
def lookupName (l : List (String × Node)) (k : String) : Option Node :=
  match l with
  | [] => none
  | (k', v) :: rest => if k' = k then some v else lookupName rest k

/-- Python `k in d` for the name index. -/
def containsName (l : List (String × Node)) (k : String) : Bool :=
  (lookupName l k).isSome

/-- Python dict assignment `d[k] = v` for the name index: replace the
binding if the key is present, else append (CPython insertion order). -/
def dictSet (l : List (String × Node)) (k : String) (v : Node) :
    List (String × Node) :=
  match l with
  | [] => [(k, v)]
  | (k', v') :: rest =>
      if k' = k then (k, v) :: rest else (k', v') :: dictSet rest k v

/-- The `collections.defaultdict(set)` update `d[t].add(n)` for the type
index: add `n` to the set bound to `t`, creating the entry if absent. -/
def typeIndexAdd (l : List (PyValue × List Node)) (t : PyValue) (n : Node) :
    List (PyValue × List Node) :=
  match l with
  | [] => [(t, [n])]
  | (t', s) :: rest =>
      if t' = t then (t, setAdd n s) :: rest else (t', s) :: typeIndexAdd rest t n

/-- Source `class DepGraph`: the three fields set up by `__init__`. -/
structure DepGraph where
  type_index : List (PyValue × List Node)
  name_index : List (String × Node)
  relationships : List (Node × Node)
deriving DecidableEq, Repr

/-- Constructor `DepGraph()`: all three containers start empty. -/
def DepGraph.empty : DepGraph :=
  { type_index := [], name_index := [], relationships := [] }

/-- The registration half of `add_node` (the `if dep.name not in
self.name_index` block); also exactly what the recursive call
`self.add_node(d)` performs, since its `dependencies` default is `None`. -/
def DepGraph.registerNode (g : DepGraph) (dep : Node) : DepGraph :=
  if containsName g.name_index dep.name then g
  else
    { g with
      type_index := typeIndexAdd g.type_index dep.dependency_type.type dep,
      name_index := dictSet g.name_index dep.name dep }

/-- One iteration of the `for d in dependencies` loop of `add_node`: the
recursive `self.add_node(d)` call (which is exactly `registerNode`, its
`dependencies` defaulting to `None`), then `relationships.add((dep, d))`. -/
def addEdgeStep (dep : Node) (acc : DepGraph) (d : Node) : DepGraph :=
  let acc' := acc.registerNode d
  { acc' with relationships := setAdd (dep, d) acc'.relationships }

/-- Method `DepGraph.add_node(dep, dependencies=None)`.  `dependencies` is modelled
as a list; `[]` covers both `None` and the empty set (both falsy, so the
loop body is skipped either way). -/
def DepGraph.add_node (g : DepGraph) (dep : Node) (dependencies : List Node) :
    DepGraph :=
  dependencies.foldl (addEdgeStep dep) (g.registerNode dep)

/-- Method `DepGraph.add_dependencies(name, dependencies)`: the lookup
`self.name_index[name]` raises `KeyError` before any mutation; on success
every edge `(node, d)` is added. -/
def DepGraph.add_dependencies (g : DepGraph) (name : String)
    (dependencies : List Node) : Except PyError DepGraph :=
  match lookupName g.name_index name with
  | none => Except.error PyError.keyError
  | some node =>
      Except.ok
        { g with
          relationships :=
            dependencies.foldl (fun r d => setAdd (node, d) r) g.relationships }

/-- Method `DepGraph.add_relationship(dependent, dependence)`: two `assert`s, then
one edge between the indexed nodes. -/
def DepGraph.add_relationship (g : DepGraph) (dependent dependence : String) :
    Except PyError DepGraph :=
  if ¬ containsName g.name_index dependent then Except.error PyError.assertionError
  else if ¬ containsName g.name_index dependence then Except.error PyError.assertionError
  else
    match lookupName g.name_index dependent, lookupName g.name_index dependence with
    | some a, some b =>
        Except.ok { g with relationships := setAdd (a, b) g.relationships }
    | _, _ => Except.error PyError.assertionError

/-- Method `DepGraph.get_by_name(name)`: plain dict lookup, `KeyError` if absent. -/
def DepGraph.get_by_name (g : DepGraph) (name : String) : Except PyError Node :=
  match lookupName g.name_index name with
  | none => Except.error PyError.keyError
  | some node => Except.ok node

/-- Method `DepGraph.get_dependents(name)`: `KeyError` on the lookup, else the set
of first components of edges whose second component `is` the node. -/
def DepGraph.get_dependents (g : DepGraph) (name : String) :
    Except PyError (List Node) :=
  match lookupName g.name_index name with
  | none => Except.error PyError.keyError
  | some node =>
      Except.ok ((g.relationships.filter (fun p => p.2 = node)).map Prod.fst)

/-- Method `DepGraph.get_dependencies(name)`: symmetric forward query. -/
def DepGraph.get_dependencies (g : DepGraph) (name : String) :
    Except PyError (List Node) :=
  match lookupName g.name_index name with
  | none => Except.error PyError.keyError
  | some node =>
      Except.ok ((g.relationships.filter (fun p => p.1 = node)).map Prod.snd)

/-- The default value of an `inspect.Parameter`: the `empty` sentinel (no
default), a `Dependency` instance (the `isinstance` branch of extraction),
or any other object. -/
inductive ParamDefault where
  | empty : ParamDefault
  | dep : Dependency → ParamDefault
  | other : PyValue → ParamDefault
deriving DecidableEq, Repr

/-- One `inspect.Parameter` of a signature: its name, its declared type
(`annot` models the `.annotation` attribute; `PyValue.empty` models the
`inspect.Parameter.empty` sentinel of an unannotated parameter) and its
default value. -/
structure Param where
  name : String
  annot : PyValue
  default : ParamDefault
deriving DecidableEq, Repr

/-- A Python callable as `extract_dependencies` observes it: an optional
`__dependencies__` attribute (`none` when `hasattr` is false) and the
ordered formal parameters of `inspect.signature(...)`. -/
structure PyCallable where
  dunder_dependencies : Option (List (String × Dependency))
  params : List Param
deriving DecidableEq, Repr

/-- Function `extract_dependencies(dependent)`: return `__dependencies__` verbatim
when present; otherwise one entry per formal parameter, keyed by the
parameter name (signature names are unique), with
`type=p.annotation` and
`factory=p.default.factory if isinstance(p.default, Dependency) else
p.annotation`. -/
def extract_dependencies (dependent : PyCallable) :
    List (String × Dependency) :=
  match dependent.dunder_dependencies with
  | some m => m
  | none =>
      dependent.params.map (fun p =>
        (p.name,
          { factory :=
              match p.default with
              | ParamDefault.dep d => d.factory
              | _ => p.annot,
            type := p.annot }))

/-- One successful (non-raising) public mutation of the graph, with no
restriction on the nodes a caller may pass. -/
inductive StepFree : DepGraph → DepGraph → Prop where
  | addNode (g : DepGraph) (dep : Node) (deps : List Node) :
      StepFree g (g.add_node dep deps)
  | addDependencies (g : DepGraph) (name : String) (deps : List Node)
      (g' : DepGraph) (h : g.add_dependencies name deps = Except.ok g') :
      StepFree g g'
  | addRelationship (g : DepGraph) (a b : String) (g' : DepGraph)
      (h : g.add_relationship a b = Except.ok g') :
      StepFree g g'

/-- Graph states reachable from a fresh `DepGraph()` by any sequence of
successful public mutations (queries do not mutate). -/
inductive ReachableFree : DepGraph → Prop where
  | empty : ReachableFree DepGraph.empty
  | step {g g' : DepGraph} : ReachableFree g → StepFree g g' →
      ReachableFree g'

/-- One successful public mutation under the discipline of claim C1:
`add_dependencies` is only called with dependency nodes that are already
registered (each is the value its own name is bound to). -/
inductive StepReg : DepGraph → DepGraph → Prop where
  | addNode (g : DepGraph) (dep : Node) (deps : List Node) :
      StepReg g (g.add_node dep deps)
  | addDependencies (g : DepGraph) (name : String) (deps : List Node)
      (g' : DepGraph) (h : g.add_dependencies name deps = Except.ok g')
      (hreg : ∀ d ∈ deps, lookupName g.name_index d.name = some d) :
      StepReg g g'
  | addRelationship (g : DepGraph) (a b : String) (g' : DepGraph)
      (h : g.add_relationship a b = Except.ok g') :
      StepReg g g'

/-- Graph states reachable from a fresh `DepGraph()` by any sequence of
successful public mutations obeying the C1 discipline. -/
inductive ReachableReg : DepGraph → Prop where
  | empty : ReachableReg DepGraph.empty
  | step {g g' : DepGraph} : ReachableReg g → StepReg g g' →
      ReachableReg g'

/-- A node occurs in one of the sets stored in the type index. -/
def inTypeIndex (g : DepGraph) (n : Node) : Prop :=
  ∃ p ∈ g.type_index, n ∈ p.2

/-- A node is one of the values of the name index. -/
def isNameValue (g : DepGraph) (n : Node) : Prop :=
  ∃ p ∈ g.name_index, p.2 = n

/-- Membership in the `Except.ok` payload of a set-returning query. -/
def memOk (x : Node) (e : Except PyError (List Node)) : Prop :=
  ∃ l, e = Except.ok l ∧ x ∈ l

/-- Every name-index entry binds a node to its own name (auxiliary
invariant: values are always stored under their own `name`). -/
def NamesOwn (g : DepGraph) : Prop :=
  ∀ p ∈ g.name_index, Node.name p.2 = p.1

/-- Both endpoints of every edge have their names registered as keys of
the name index. -/
def EdgeNamesBound (g : DepGraph) : Prop :=
  ∀ e ∈ g.relationships,
    containsName g.name_index (Node.name e.1) = true ∧
    containsName g.name_index (Node.name e.2) = true

/-- The two indexes describe the same vertex set (invariant I1). -/
def IndexSym (g : DepGraph) : Prop :=
  ∀ n, inTypeIndex g n ↔ isNameValue g n

/-- A concrete `Dependency` used by the example graphs. -/
def depUnit : Dependency := { factory := PyValue.obj 0, type := PyValue.obj 0 }

/-- A concrete node named `x` (object identity 0). -/
def nodeX0 : Node := { id := 0, name := "x", dependency_type := depUnit }

/-- A second, distinct node also named `x` (object identity 1). -/
def nodeX1 : Node := { id := 1, name := "x", dependency_type := depUnit }

/-- A concrete node named `y`. -/
def nodeY2 : Node := { id := 2, name := "y", dependency_type := depUnit }

/-- A concrete node named `z`. -/
def nodeZ3 : Node := { id := 3, name := "z", dependency_type := depUnit }

/-- The graph obtained by `add_node(nodeX0)` and then
`add_node(nodeX1, {nodeY2})`, where `nodeX1` is a distinct object whose
name `x` is already registered to `nodeX0`. -/
def gBad : DepGraph := (DepGraph.empty.add_node nodeX0 []).add_node nodeX1 [nodeY2]

/-- The Python `int` type as an opaque object. -/
def intObj : PyValue := PyValue.obj 10

/-- The `make_b` factory callable as an opaque object. -/
def makeBObj : PyValue := PyValue.obj 11

/-- The entity of the extraction example: parameters `a: int` and
`b: int = Dependency(factory=make_b, type=int)`, no `__dependencies__`. -/
def exampleEntity : PyCallable :=
  { dunder_dependencies := none,
    params :=
      [ { name := "a", annot := intObj, default := ParamDefault.empty },
        { name := "b", annot := intObj,
          default := ParamDefault.dep { factory := makeBObj, type := intObj } } ] }

/-- A callable carrying an explicit `__dependencies__` mapping, whose
signature (one annotated parameter) differs from that mapping. -/
def overrideEntity : PyCallable :=
  { dunder_dependencies := some [("k", depUnit)],
    params := [ { name := "a", annot := intObj, default := ParamDefault.empty } ] }

/-- A callable with a single unannotated, defaultless parameter. -/
def unannotatedEntity : PyCallable :=
  { dunder_dependencies := none,
    params :=
      [ { name := "a", annot := PyValue.empty, default := ParamDefault.empty } ] }

/-- Membership after `set.add`. -/
theorem mem_setAdd {α : Type} [DecidableEq α] {x y : α} {s : List α} :
    x ∈ setAdd y s ↔ x = y ∨ x ∈ s := by
  unfold setAdd
  split
  · constructor
    · exact fun h => Or.inr h
    · rintro (rfl | h) <;> assumption
  · simp [or_comm]

/-- Membership in a fold of edge insertions. -/
theorem mem_foldl_setAdd (node : Node) (deps : List Node) :
    ∀ (rel : List (Node × Node)) (e : Node × Node),
      (e ∈ deps.foldl (fun r d => setAdd (node, d) r) rel ↔
        e ∈ rel ∨ ∃ d ∈ deps, e = (node, d)) := by
  induction deps with
  | nil => simp
  | cons d0 tl ih =>
    intro rel e
    simp only [List.foldl_cons, ih, mem_setAdd]
    constructor
    · rintro ((h | h) | ⟨d, hd, heq⟩)
      · exact Or.inr ⟨d0, List.mem_cons_self _ _, h⟩
      · exact Or.inl h
      · exact Or.inr ⟨d, List.mem_cons_of_mem _ hd, heq⟩
    · rintro (h | ⟨d, hd, heq⟩)
      · exact Or.inl (Or.inr h)
      · rcases List.mem_cons.mp hd with heq' | hd
        · subst heq'; exact Or.inl (Or.inl heq)
        · exact Or.inr ⟨d, hd, heq⟩

/-- Looking up after a dict assignment. -/
theorem lookupName_dictSet (l : List (String × Node)) (k q : String) (v : Node) :
    lookupName (dictSet l k v) q = if k = q then some v else lookupName l q := by
  induction l with
  | nil => simp [dictSet, lookupName]
  | cons hd tl ih =>
    obtain ⟨k', v'⟩ := hd
    by_cases hk : k' = k
    · subst hk
      simp only [dictSet, if_pos rfl, lookupName]
      by_cases hq : k' = q
      · subst hq; simp
      · simp [hq, lookupName, hq]
    · simp only [dictSet, if_neg hk, lookupName]
      by_cases hq : k' = q
      · subst hq
        have : k ≠ k' := fun h => hk h.symm
        simp [this]
      · simp [hq, ih]

/-- A successful lookup exhibits a list member. -/
theorem lookupName_mem {l : List (String × Node)} {k : String} {v : Node}
    (h : lookupName l k = some v) : (k, v) ∈ l := by
  induction l with
  | nil => simp [lookupName] at h
  | cons hd tl ih =>
    obtain ⟨k', v'⟩ := hd
    simp only [lookupName] at h
    split at h
    · rename_i hk
      cases h
      subst hk
      exact List.mem_cons_self _ _
    · exact List.mem_cons_of_mem _ (ih h)

/-- A dict assignment with an absent key appends the new binding. -/
theorem dictSet_eq_append {l : List (String × Node)} {k : String}
    (v : Node) (h : lookupName l k = none) : dictSet l k v = l ++ [(k, v)] := by
  induction l with
  | nil => simp [dictSet]
  | cons hd tl ih =>
    obtain ⟨k', v'⟩ := hd
    simp only [lookupName] at h
    split at h
    · exact absurd h (Option.some_ne_none _)
    · rename_i hk
      simp [dictSet, hk, ih h]

/-- Dict assignment only adds or replaces: every entry of the result is an
old entry or the new binding. -/
theorem mem_dictSet_of_mem {l : List (String × Node)} {k : String}
    {v : Node} {p : String × Node} (h : p ∈ dictSet l k v) :
    p ∈ l ∨ p = (k, v) := by
  induction l with
  | nil => simpa [dictSet] using h
  | cons hd tl ih =>
    obtain ⟨k', v'⟩ := hd
    simp only [dictSet] at h
    split at h
    · rcases List.mem_cons.mp h with h | h
      · exact Or.inr h
      · exact Or.inl (List.mem_cons_of_mem _ h)
    · rcases List.mem_cons.mp h with h | h
      · exact Or.inl (h ▸ List.mem_cons_self _ _)
      · rcases ih h with h | h
        · exact Or.inl (List.mem_cons_of_mem _ h)
        · exact Or.inr h

/-- Membership in the flattened type index after a `defaultdict` add. -/
theorem mem_typeIndexAdd {l : List (PyValue × List Node)} {t : PyValue}
    {n m : Node} :
    (∃ p ∈ typeIndexAdd l t n, m ∈ p.2) ↔ m = n ∨ ∃ p ∈ l, m ∈ p.2 := by
  induction l with
  | nil => simp [typeIndexAdd, mem_setAdd]
  | cons hd tl ih =>
    obtain ⟨t', s⟩ := hd
    by_cases ht : t' = t
    · subst ht
      simp only [typeIndexAdd, if_pos rfl]
      constructor
      · rintro ⟨p, hp, hm⟩
        rcases List.mem_cons.mp hp with rfl | hp
        · rcases mem_setAdd.mp hm with rfl | hm
          · exact Or.inl rfl
          · exact Or.inr ⟨(t', s), List.mem_cons_self _ _, hm⟩
        · exact Or.inr ⟨p, List.mem_cons_of_mem _ hp, hm⟩
      · rintro (heq | ⟨p, hp, hm⟩)
        · exact ⟨(t', setAdd n s), List.mem_cons_self _ _, mem_setAdd.mpr (Or.inl heq)⟩
        · rcases List.mem_cons.mp hp with heq | hp
          · subst heq
            exact ⟨(t', setAdd n s), List.mem_cons_self _ _, mem_setAdd.mpr (Or.inr hm)⟩
          · exact ⟨p, List.mem_cons_of_mem _ hp, hm⟩
    · simp only [typeIndexAdd, if_neg ht]
      constructor
      · rintro ⟨p, hp, hm⟩
        rcases List.mem_cons.mp hp with heq | hp
        · subst heq
          exact Or.inr ⟨(t', s), List.mem_cons_self _ _, hm⟩
        · rcases ih.mp ⟨p, hp, hm⟩ with h | ⟨q, hq, hmq⟩
          · exact Or.inl h
          · exact Or.inr ⟨q, List.mem_cons_of_mem _ hq, hmq⟩
      · rintro (heq | ⟨p, hp, hm⟩)
        · rcases ih.mpr (Or.inl heq) with ⟨q, hq, hmq⟩
          exact ⟨q, List.mem_cons_of_mem _ hq, hmq⟩
        · rcases List.mem_cons.mp hp with heq | hp
          · subst heq
            exact ⟨(t', s), List.mem_cons_self _ _, hm⟩
          · rcases ih.mpr (Or.inr ⟨p, hp, hm⟩) with ⟨q, hq, hmq⟩
            exact ⟨q, List.mem_cons_of_mem _ hq, hmq⟩

/-- A `containsName` that is false is a `none` lookup. -/
theorem lookupName_eq_none_of_not_contains {l : List (String × Node)}
    {k : String} (h : containsName l k = false) : lookupName l k = none := by
  unfold containsName at h
  cases hl : lookupName l k with
  | none => rfl
  | some v => rw [hl] at h; simp at h

/-- The function `registerNode` never removes a key from the name index. -/
theorem containsName_registerNode_mono {g : DepGraph} {d : Node} {k : String}
    (h : containsName g.name_index k = true) :
    containsName (g.registerNode d).name_index k = true := by
  unfold DepGraph.registerNode
  split
  · exact h
  · unfold containsName at h ⊢
    simp only [lookupName_dictSet]
    split
    · simp
    · exact h

/-- After `registerNode d`, the name of `d` is a key. -/
theorem containsName_registerNode_self (g : DepGraph) (d : Node) :
    containsName (g.registerNode d).name_index d.name = true := by
  unfold DepGraph.registerNode
  split
  · assumption
  · unfold containsName
    simp [lookupName_dictSet]

/-- The function `registerNode` does not touch the relationship set. -/
theorem registerNode_relationships (g : DepGraph) (d : Node) :
    (g.registerNode d).relationships = g.relationships := by
  unfold DepGraph.registerNode
  split <;> rfl

/-- The function `registerNode` preserves the values-own-their-keys invariant. -/
theorem NamesOwn_registerNode {g : DepGraph} (d : Node) (h : NamesOwn g) :
    NamesOwn (g.registerNode d) := by
  unfold DepGraph.registerNode
  split
  · exact h
  · intro p hp
    rcases mem_dictSet_of_mem hp with hp | hp
    · exact h p hp
    · subst hp; rfl

/-- The function `registerNode` preserves index symmetry (I1): it adds the node to both
indexes, or to neither. -/
theorem IndexSym_registerNode {g : DepGraph} (d : Node) (h : IndexSym g) :
    IndexSym (g.registerNode d) := by
  unfold DepGraph.registerNode
  split
  · exact h
  · rename_i hcont
    intro n
    have hnone : lookupName g.name_index d.name = none :=
      lookupName_eq_none_of_not_contains (by simpa using hcont)
    unfold inTypeIndex isNameValue
    simp only [dictSet_eq_append d hnone]
    rw [mem_typeIndexAdd]
    constructor
    · rintro (heq | hm)
      · exact ⟨(d.name, d), by simp, by simp [heq]⟩
      · rcases (h n).mp hm with ⟨p, hp, hpn⟩
        exact ⟨p, by simp [hp], hpn⟩
    · rintro ⟨p, hp, hpn⟩
      rcases List.mem_append.mp hp with hp | hp
      · exact Or.inr ((h n).mpr ⟨p, hp, hpn⟩)
      · simp at hp
        rw [hp] at hpn
        exact Or.inl hpn.symm

/-- Any property preserved by each loop iteration of `add_node` is
preserved by the whole loop. -/
theorem foldl_addEdgeStep_pres (P : DepGraph → Prop) (dep : Node)
    (hstep : ∀ acc d, P acc → P (addEdgeStep dep acc d)) :
    ∀ (deps : List Node) (acc : DepGraph), P acc →
      P (deps.foldl (addEdgeStep dep) acc) := by
  intro deps
  induction deps with
  | nil => intro acc h; exact h
  | cons d0 tl ih => intro acc h; exact ih _ (hstep acc d0 h)

/-- Inversion for a successful `add_dependencies` call. -/
theorem add_dependencies_ok {g : DepGraph} {name : String} {deps : List Node}
    {g' : DepGraph} (h : g.add_dependencies name deps = Except.ok g') :
    ∃ node, lookupName g.name_index name = some node ∧
      g' = { g with
        relationships :=
          deps.foldl (fun r d => setAdd (node, d) r) g.relationships } := by
  unfold DepGraph.add_dependencies at h
  cases hl : lookupName g.name_index name with
  | none => rw [hl] at h; exact absurd h (by simp)
  | some node =>
      rw [hl] at h
      exact ⟨node, rfl, (Except.ok.inj h).symm⟩

/-- Inversion for a successful `add_relationship` call. -/
theorem add_relationship_ok {g : DepGraph} {a b : String} {g' : DepGraph}
    (h : g.add_relationship a b = Except.ok g') :
    ∃ na nb, lookupName g.name_index a = some na ∧
      lookupName g.name_index b = some nb ∧
      g' = { g with relationships := setAdd (na, nb) g.relationships } := by
  unfold DepGraph.add_relationship at h
  cases hla : lookupName g.name_index a with
  | none => simp [containsName, hla] at h
  | some na =>
      cases hlb : lookupName g.name_index b with
      | none => simp [containsName, hla, hlb] at h
      | some nb =>
          simp only [containsName, hla, hlb, Option.isSome_some,
            Bool.not_true, not_false_eq_true, if_false] at h
          refine ⟨na, nb, rfl, rfl, ?_⟩
          simp at h
          exact h.symm

/-- Each `add_node` loop iteration preserves values-own-their-keys. -/
theorem NamesOwn_addEdgeStep {acc : DepGraph} (dep d : Node)
    (h : NamesOwn acc) : NamesOwn (addEdgeStep dep acc d) :=
  NamesOwn_registerNode d h

/-- Each `add_node` loop iteration preserves keys of the name index. -/
theorem containsName_addEdgeStep_mono {acc : DepGraph} {dep d : Node}
    {k : String} (h : containsName acc.name_index k = true) :
    containsName (addEdgeStep dep acc d).name_index k = true :=
  containsName_registerNode_mono h

/-- The function `registerNode` preserves the no-dangling-names bound on edges. -/
theorem EdgeNamesBound_registerNode {g : DepGraph} (d : Node)
    (h : EdgeNamesBound g) : EdgeNamesBound (g.registerNode d) := by
  intro e he
  rw [registerNode_relationships] at he
  obtain ⟨h1, h2⟩ := h e he
  exact ⟨containsName_registerNode_mono h1, containsName_registerNode_mono h2⟩

/-- Each `add_node` loop iteration preserves the no-dangling-names bound,
provided the name of the `dep` argument is already a key. -/
theorem EdgeNamesBound_addEdgeStep {acc : DepGraph} {dep : Node} (d : Node)
    (hdep : containsName acc.name_index dep.name = true)
    (h : EdgeNamesBound acc) : EdgeNamesBound (addEdgeStep dep acc d) := by
  intro e he
  have he' : e ∈ setAdd (dep, d) (acc.registerNode d).relationships := he
  rcases mem_setAdd.mp he' with heq | hmem
  · subst heq
    exact ⟨containsName_registerNode_mono hdep,
      containsName_registerNode_self acc d⟩
  · rw [registerNode_relationships] at hmem
    obtain ⟨h1, h2⟩ := h e hmem
    exact ⟨containsName_registerNode_mono h1, containsName_registerNode_mono h2⟩

/-- The function `add_node` preserves values-own-their-keys and the no-dangling-names
bound on edges. -/
theorem GoodReg_add_node {g : DepGraph} (dep : Node) (deps : List Node)
    (h1 : NamesOwn g) (h2 : EdgeNamesBound g) :
    NamesOwn (g.add_node dep deps) ∧ EdgeNamesBound (g.add_node dep deps) := by
  have base : NamesOwn (g.registerNode dep) ∧
      EdgeNamesBound (g.registerNode dep) ∧
      containsName (g.registerNode dep).name_index dep.name = true :=
    ⟨NamesOwn_registerNode dep h1, EdgeNamesBound_registerNode dep h2,
      containsName_registerNode_self g dep⟩
  have hall := foldl_addEdgeStep_pres
    (fun acc => NamesOwn acc ∧ EdgeNamesBound acc ∧
      containsName acc.name_index dep.name = true)
    dep
    (fun acc d h =>
      ⟨NamesOwn_addEdgeStep dep d h.1, EdgeNamesBound_addEdgeStep d h.2.2 h.2.1,
        containsName_addEdgeStep_mono h.2.2⟩)
    deps _ base
  exact ⟨hall.1, hall.2.1⟩

/-- Each `add_node` loop iteration preserves index symmetry. -/
theorem IndexSym_addEdgeStep {acc : DepGraph} (dep d : Node)
    (h : IndexSym acc) : IndexSym (addEdgeStep dep acc d) :=
  IndexSym_registerNode d h

/-- The function `add_node` preserves index symmetry. -/
theorem IndexSym_add_node {g : DepGraph} (dep : Node) (deps : List Node)
    (h : IndexSym g) : IndexSym (g.add_node dep deps) :=
  foldl_addEdgeStep_pres IndexSym dep
    (fun _ d ha => IndexSym_addEdgeStep dep d ha) deps _
    (IndexSym_registerNode dep h)

/-- A successful `add_dependencies` preserves index symmetry (only the
relationship set changes). -/
theorem IndexSym_add_dependencies {g : DepGraph} {name : String}
    {deps : List Node} {g' : DepGraph}
    (hok : g.add_dependencies name deps = Except.ok g')
    (h : IndexSym g) : IndexSym g' := by
  obtain ⟨node, hl, rfl⟩ := add_dependencies_ok hok
  exact h

/-- A successful `add_relationship` preserves index symmetry. -/
theorem IndexSym_add_relationship {g : DepGraph} {a b : String}
    {g' : DepGraph} (hok : g.add_relationship a b = Except.ok g')
    (h : IndexSym g) : IndexSym g' := by
  obtain ⟨na, nb, hla, hlb, rfl⟩ := add_relationship_ok hok
  exact h

/-- Index symmetry (I1) holds in every reachable graph state. -/
theorem IndexSym_reachable {g : DepGraph} (h : ReachableFree g) : IndexSym g := by
  induction h with
  | empty => intro n; simp [inTypeIndex, isNameValue, DepGraph.empty]
  | step hr hs ih =>
    cases hs with
    | addNode dep deps => exact IndexSym_add_node dep deps ih
    | addDependencies name deps g' hok => exact IndexSym_add_dependencies hok ih
    | addRelationship a b g' hok => exact IndexSym_add_relationship hok ih

/-- A successful `add_dependencies` whose dependency nodes are all
registered preserves values-own-their-keys and the no-dangling-names
bound. -/
theorem GoodReg_add_dependencies {g : DepGraph} {name : String}
    {deps : List Node} {g' : DepGraph}
    (hok : g.add_dependencies name deps = Except.ok g')
    (hreg : ∀ d ∈ deps, lookupName g.name_index d.name = some d)
    (h1 : NamesOwn g) (h2 : EdgeNamesBound g) :
    NamesOwn g' ∧ EdgeNamesBound g' := by
  obtain ⟨node, hl, rfl⟩ := add_dependencies_ok hok
  refine ⟨h1, ?_⟩
  intro e he
  have he' : e ∈ deps.foldl (fun r d => setAdd (node, d) r)
      g.relationships := he
  rcases (mem_foldl_setAdd node deps g.relationships e).mp he' with
    hmem | ⟨d, hd, heq⟩
  · exact h2 e hmem
  · subst heq
    constructor
    · have hmem' : (name, node) ∈ g.name_index := lookupName_mem hl
      have hn : Node.name node = name := h1 _ hmem'
      show containsName g.name_index (Node.name node) = true
      rw [hn]
      simp [containsName, hl]
    · have hd' := hreg d hd
      show containsName g.name_index (Node.name d) = true
      simp [containsName, hd']

/-- A successful `add_relationship` preserves values-own-their-keys and
the no-dangling-names bound. -/
theorem GoodReg_add_relationship {g : DepGraph} {a b : String}
    {g' : DepGraph} (hok : g.add_relationship a b = Except.ok g')
    (h1 : NamesOwn g) (h2 : EdgeNamesBound g) :
    NamesOwn g' ∧ EdgeNamesBound g' := by
  obtain ⟨na, nb, hla, hlb, rfl⟩ := add_relationship_ok hok
  refine ⟨h1, ?_⟩
  intro e he
  have he' : e ∈ setAdd (na, nb) g.relationships := he
  rcases mem_setAdd.mp he' with heq | hmem
  · subst heq
    constructor
    · have hn : Node.name na = a := h1 _ (lookupName_mem hla)
      show containsName g.name_index (Node.name na) = true
      rw [hn]
      simp [containsName, hla]
    · have hn : Node.name nb = b := h1 _ (lookupName_mem hlb)
      show containsName g.name_index (Node.name nb) = true
      rw [hn]
      simp [containsName, hlb]
  · exact h2 e hmem

/-- Values-own-their-keys and the no-dangling-names bound hold in every
graph state reachable under the C1 discipline. -/
theorem GoodReg_reachable {g : DepGraph} (h : ReachableReg g) :
    NamesOwn g ∧ EdgeNamesBound g := by
  induction h with
  | empty =>
      constructor
      · intro p hp; simp [DepGraph.empty] at hp
      · intro e he; simp [DepGraph.empty] at he
  | step hr hs ih =>
    obtain ⟨h1, h2⟩ := ih
    cases hs with
    | addNode dep deps => exact GoodReg_add_node dep deps h1 h2
    | addDependencies name deps g' hok hreg =>
        exact GoodReg_add_dependencies hok hreg h1 h2
    | addRelationship a b g' hok =>
        exact GoodReg_add_relationship hok h1 h2

/-- Claim C2: registration is idempotent — when `n.name` is already a key
of the name index, `add_node(n)` with no dependencies leaves `name_index`
and `type_index` unchanged, so `name_index[n.name]` still references the
first-registered node object. -/
theorem C2_idempotent_registration (g : DepGraph) (n : Node)
    (h : containsName g.name_index n.name = true) :
    (g.add_node n []).name_index = g.name_index ∧
    (g.add_node n []).type_index = g.type_index ∧
    lookupName (g.add_node n []).name_index n.name =
      lookupName g.name_index n.name := by
  have hfix : g.add_node n [] = g := by
    unfold DepGraph.add_node DepGraph.registerNode
    simp [h]
  rw [hfix]
  exact ⟨rfl, rfl, rfl⟩

/-- Witness for C2: re-adding a second node named `x` to a graph that
already registered `nodeX0` under `x` changes nothing. -/
theorem C2_idempotent_registration_witness :
    containsName (DepGraph.empty.add_node nodeX0 []).name_index
      nodeX1.name = true ∧
    ((DepGraph.empty.add_node nodeX0 []).add_node nodeX1 []).name_index =
      (DepGraph.empty.add_node nodeX0 []).name_index :=
  ⟨by decide, (C2_idempotent_registration _ nodeX1 (by decide)).1⟩

/-- Claim C7: a callable carrying an explicit `__dependencies__` mapping
has exactly that mapping returned, unchanged, regardless of its
signature. -/
theorem C7_explicit_override (f : PyCallable)
    (m : List (String × Dependency)) (h : f.dunder_dependencies = some m) :
    extract_dependencies f = m := by
  unfold extract_dependencies
  rw [h]

/-- Witness for C7 at a callable whose signature disagrees with its
explicit mapping. -/
theorem C7_explicit_override_witness :
    overrideEntity.dunder_dependencies = some [("k", depUnit)] ∧
    extract_dependencies overrideEntity = [("k", depUnit)] :=
  ⟨rfl, C7_explicit_override overrideEntity [("k", depUnit)] rfl⟩

/-- Claim C8: without an explicit mapping, extraction yields one entry per
formal parameter, keyed by the parameter name, whose type is the declared
annotation and whose factory is the default `Dependency`'s factory when
the default is a `Dependency`, else the annotation itself; at the example
entity (`a: int`, `b: int = Dependency(factory=make_b, type=int)`) it
yields the stated mapping. -/
theorem C8_signature_extraction :
    (∀ f : PyCallable, f.dunder_dependencies = none →
      extract_dependencies f = f.params.map (fun p =>
        (p.name,
          { factory :=
              match p.default with
              | ParamDefault.dep d => d.factory
              | _ => p.annot,
            type := p.annot }))) ∧
    extract_dependencies exampleEntity =
      [("a", { factory := intObj, type := intObj }),
       ("b", { factory := makeBObj, type := intObj })] := by
  constructor
  · intro f hf
    unfold extract_dependencies
    rw [hf]
  · rfl

/-- Witness for C8 at the example entity. -/
theorem C8_signature_extraction_witness :
    exampleEntity.dunder_dependencies = none ∧
    extract_dependencies exampleEntity = exampleEntity.params.map (fun p =>
      (p.name,
        { factory :=
            match p.default with
            | ParamDefault.dep d => d.factory
            | _ => p.annot,
          type := p.annot })) :=
  ⟨rfl, C8_signature_extraction.1 exampleEntity rfl⟩

/-- Claim C9: an unannotated parameter whose default is not a `Dependency`
is neither rejected nor skipped — extraction still yields one entry per
parameter, and that parameter's entry carries the `empty` sentinel as both
its type and its factory. -/
theorem C9_unannotated_param (f : PyCallable) (p : Param)
    (hf : f.dunder_dependencies = none) (hp : p ∈ f.params)
    (ha : p.annot = PyValue.empty)
    (hd : ∀ d, p.default ≠ ParamDefault.dep d) :
    (p.name, ({ factory := PyValue.empty, type := PyValue.empty } : Dependency))
        ∈ extract_dependencies f ∧
    (extract_dependencies f).length = f.params.length := by
  unfold extract_dependencies
  rw [hf]
  constructor
  · apply List.mem_map.mpr
    refine ⟨p, hp, ?_⟩
    obtain ⟨pn, pa, pd⟩ := p
    simp only at ha
    subst ha
    cases pd with
    | dep d => exact absurd rfl (hd d)
    | empty => rfl
    | other v => rfl
  · simp

/-- Witness for C9 at a one-parameter callable with no annotation. -/
theorem C9_unannotated_param_witness :
    (("a", ({ factory := PyValue.empty, type := PyValue.empty } : Dependency))
        ∈ extract_dependencies unannotatedEntity) ∧
    (extract_dependencies unannotatedEntity).length =
      unannotatedEntity.params.length :=
  C9_unannotated_param unannotatedEntity
    { name := "a", annot := PyValue.empty, default := ParamDefault.empty }
    rfl (List.mem_cons_self _ _) rfl
    (fun _ h => ParamDefault.noConfusion h)

/-- Claim C10: both relationship queries fail on an unknown name with the
same `KeyError`-class error as `get_by_name`; as pure functions of the
graph they mutate nothing. -/
theorem C10_unknown_name_queries (g : DepGraph) (name : String)
    (h : lookupName g.name_index name = none) :
    g.get_dependents name = Except.error PyError.keyError ∧
    g.get_dependencies name = Except.error PyError.keyError ∧
    g.get_by_name name = Except.error PyError.keyError := by
  unfold DepGraph.get_dependents DepGraph.get_dependencies DepGraph.get_by_name
  rw [h]
  exact ⟨rfl, rfl, rfl⟩

/-- Witness for C10 on a nonempty graph and the name `nonexistent`. -/
theorem C10_unknown_name_queries_witness :
    lookupName (DepGraph.empty.add_node nodeX0 []).name_index
      "nonexistent" = none ∧
    (DepGraph.empty.add_node nodeX0 []).get_dependents "nonexistent" =
      Except.error PyError.keyError :=
  ⟨by decide,
   (C10_unknown_name_queries _ "nonexistent" (by decide)).1⟩

/-- Claim C6: unknown-name failures — `get_by_name` raises the
`KeyError`-class unknown-node error; `add_dependencies` raises the same
error before adding any edge; `add_relationship` raises an
assertion-class error when either name is absent, and when both are
present succeeds having added exactly the edge between the indexed
nodes. -/
theorem C6_unknown_name_errors (g : DepGraph) (name : String)
    (h : lookupName g.name_index name = none) (deps : List Node)
    (a b : String) :
    g.get_by_name name = Except.error PyError.keyError ∧
    g.add_dependencies name deps = Except.error PyError.keyError ∧
    ((lookupName g.name_index a = none ∨ lookupName g.name_index b = none) →
      g.add_relationship a b = Except.error PyError.assertionError) ∧
    (∀ na nb, lookupName g.name_index a = some na →
      lookupName g.name_index b = some nb →
      g.add_relationship a b =
        Except.ok
          { g with relationships := setAdd (na, nb) g.relationships }) := by
  refine ⟨?_, ?_, ?_, ?_⟩
  · unfold DepGraph.get_by_name
    rw [h]
  · unfold DepGraph.add_dependencies
    rw [h]
  · intro hab
    unfold DepGraph.add_relationship
    rcases hab with ha | hb
    · simp [containsName, ha]
    · cases hla : lookupName g.name_index a with
      | none => simp [containsName, hla]
      | some na => simp [containsName, hla, hb]
  · intro na nb hna hnb
    unfold DepGraph.add_relationship
    simp [containsName, hna, hnb]

/-- Witness for C6 on a graph holding only `nodeX0` (named `x`). -/
theorem C6_unknown_name_errors_witness :
    lookupName (DepGraph.empty.add_node nodeX0 []).name_index
      "nonexistent" = none ∧
    (DepGraph.empty.add_node nodeX0 []).get_by_name "nonexistent" =
      Except.error PyError.keyError ∧
    (DepGraph.empty.add_node nodeX0 []).add_relationship "nonexistent" "x" =
      Except.error PyError.assertionError :=
  ⟨by decide,
   (C6_unknown_name_errors _ "nonexistent" (by decide) [] "nonexistent" "x").1,
   (C6_unknown_name_errors _ "nonexistent" (by decide) [] "nonexistent"
      "x").2.2.1 (Or.inl (by decide))⟩

/-- Claim C5: query symmetry — in a reachable graph, for registered names
`x` and `y`, the node of `y` lies in `get_dependencies(x)` iff the node
of `x` lies in `get_dependents(y)`. -/
theorem C5_query_symmetry (g : DepGraph) (_hg : ReachableFree g)
    (x y : String) (nx ny : Node)
    (hx : lookupName g.name_index x = some nx)
    (hy : lookupName g.name_index y = some ny)
    (lx ly : List Node)
    (hlx : g.get_dependencies x = Except.ok lx)
    (hly : g.get_dependents y = Except.ok ly) :
    (ny ∈ lx ↔ nx ∈ ly) := by
  unfold DepGraph.get_dependencies at hlx
  unfold DepGraph.get_dependents at hly
  rw [hx] at hlx
  rw [hy] at hly
  injection hlx with hlx
  injection hly with hly
  subst hlx
  subst hly
  simp only [List.mem_map, List.mem_filter, decide_eq_true_eq]
  constructor
  · rintro ⟨p, ⟨hp, h1⟩, h2⟩
    exact ⟨p, ⟨hp, h2⟩, h1⟩
  · rintro ⟨p, ⟨hp, h2⟩, h1⟩
    exact ⟨p, ⟨hp, h1⟩, h2⟩

/-- Witness for C5 on the reachable graph `add_node(nodeX0, {nodeY2})`. -/
theorem C5_query_symmetry_witness :
    lookupName (DepGraph.empty.add_node nodeX0 [nodeY2]).name_index "x" =
      some nodeX0 ∧
    lookupName (DepGraph.empty.add_node nodeX0 [nodeY2]).name_index "y" =
      some nodeY2 ∧
    (nodeY2 ∈ [nodeY2] ↔ nodeX0 ∈ [nodeX0]) :=
  ⟨by decide, by decide,
   C5_query_symmetry (DepGraph.empty.add_node nodeX0 [nodeY2])
     (ReachableFree.step ReachableFree.empty
       (StepFree.addNode DepGraph.empty nodeX0 [nodeY2]))
     "x" "y" nodeX0 nodeY2 (by decide) (by decide)
     [nodeY2] [nodeX0] rfl rfl⟩

/-- Claim C3: index symmetry (I1) — in every graph state reachable by
public operations, the union of the node sets stored in `type_index` is
exactly the set of values of `name_index`. -/
theorem C3_index_symmetry (g : DepGraph) (_hg : ReachableFree g) (n : Node) :
    inTypeIndex g n ↔ isNameValue g n :=
  IndexSym_reachable _hg n

/-- Witness for C3 on a reachable one-node graph. -/
theorem C3_index_symmetry_witness :
    inTypeIndex (DepGraph.empty.add_node nodeX0 []) nodeX0 ↔
      isNameValue (DepGraph.empty.add_node nodeX0 []) nodeX0 :=
  C3_index_symmetry (DepGraph.empty.add_node nodeX0 [])
    (ReachableFree.step ReachableFree.empty
      (StepFree.addNode DepGraph.empty nodeX0 [])) nodeX0

/-- Counterexample to claim C1 as stated: `gBad` is reachable under the
claimed mutation discipline (two plain `add_node` calls), and it contains
the edge `(nodeX1, nodeY2)` although `nodeX1` — a second object whose
name `x` was already registered to `nodeX0` — is not a value of
`name_index`: the edge dangles. -/
theorem C1_counterexample :
    ReachableReg gBad ∧ (nodeX1, nodeY2) ∈ gBad.relationships ∧
      ¬ isNameValue gBad nodeX1 := by
  refine ⟨?_, ?_, ?_⟩
  · exact ReachableReg.step
      (ReachableReg.step ReachableReg.empty (StepReg.addNode _ nodeX0 []))
      (StepReg.addNode _ nodeX1 [nodeY2])
  · decide
  · unfold isNameValue
    decide

/-- Claim C1 amended: under the stated mutation discipline, every edge is
name-grounded — for every pair `(a, b)` in `relationships`, both `a.name`
and `b.name` are keys of `name_index` (the endpoint object itself may be
shadowed by an earlier registration under the same name, as
`C1_counterexample` shows, so the endpoints need not be values of
`name_index`). -/
theorem C1_no_dangling_names (g : DepGraph) (hg : ReachableReg g)
    (e : Node × Node) (he : e ∈ g.relationships) :
    containsName g.name_index (Node.name e.1) = true ∧
    containsName g.name_index (Node.name e.2) = true :=
  (GoodReg_reachable hg).2 e he

/-- Witness for the amended C1 on the reachable graph `gBad`. -/
theorem C1_no_dangling_names_witness :
    (nodeX1, nodeY2) ∈ gBad.relationships ∧
    containsName gBad.name_index (Node.name nodeX1) = true ∧
    containsName gBad.name_index (Node.name nodeY2) = true :=
  ⟨by decide,
   C1_no_dangling_names gBad
     (ReachableReg.step
       (ReachableReg.step ReachableReg.empty (StepReg.addNode _ nodeX0 []))
       (StepReg.addNode _ nodeX1 [nodeY2]))
     (nodeX1, nodeY2) (by decide)⟩

/-- Counterexample to claim C4 as stated: with `n := nodeX0` and
`d1 := nodeX1` sharing the name `x`, `add_node(n, {d1, d2})` on an empty
graph does not make `d1` retrievable under its own name — `get_by_name`
returns the first-registered `nodeX0` instead. -/
theorem C4_counterexample :
    (DepGraph.empty.add_node nodeX0 [nodeX1, nodeY2]).get_by_name
      nodeX1.name ≠ Except.ok nodeX1 := by
  intro h
  have hval : (DepGraph.empty.add_node nodeX0 [nodeX1, nodeY2]).get_by_name
      nodeX1.name = Except.ok nodeX0 := rfl
  rw [hval] at h
  exact absurd (Except.ok.inj h) (by decide)

/-- Claim C4 amended: for nodes `n`, `d1`, `d2` with pairwise distinct
names, `add_node(n, {d1, d2})` on an empty graph registers all three so
that each is retrievable via `get_by_name` under its own name, and
`get_dependencies(n.name)` is exactly `{d1, d2}`. -/
theorem C4_transitive_registration (n d1 d2 : Node)
    (h1 : n.name ≠ d1.name) (h2 : n.name ≠ d2.name)
    (h3 : d1.name ≠ d2.name) :
    (DepGraph.empty.add_node n [d1, d2]).get_by_name n.name =
      Except.ok n ∧
    (DepGraph.empty.add_node n [d1, d2]).get_by_name d1.name =
      Except.ok d1 ∧
    (DepGraph.empty.add_node n [d1, d2]).get_by_name d2.name =
      Except.ok d2 ∧
    (∀ x, memOk x ((DepGraph.empty.add_node n [d1, d2]).get_dependencies
        n.name) ↔ (x = d1 ∨ x = d2)) := by
  have hd12 : d1 ≠ d2 := fun he => h3 (he ▸ rfl)
  have hni : (DepGraph.empty.add_node n [d1, d2]).name_index =
      [(n.name, n), (d1.name, d1), (d2.name, d2)] := by
    simp [DepGraph.add_node, addEdgeStep, DepGraph.registerNode,
      DepGraph.empty, containsName, lookupName, dictSet,
      h1, h2, h3, Ne.symm h1, Ne.symm h2, Ne.symm h3]
  have hrel : (DepGraph.empty.add_node n [d1, d2]).relationships =
      [(n, d2), (n, d1)] := by
    simp [DepGraph.add_node, addEdgeStep, DepGraph.registerNode,
      DepGraph.empty, containsName, lookupName, dictSet, setAdd,
      h1, h2, h3, Ne.symm h1, Ne.symm h2, Ne.symm h3, hd12, Ne.symm hd12,
      Prod.ext_iff]
  refine ⟨?_, ?_, ?_, ?_⟩
  · unfold DepGraph.get_by_name
    rw [hni]
    simp [lookupName]
  · unfold DepGraph.get_by_name
    rw [hni]
    simp [lookupName, h1]
  · unfold DepGraph.get_by_name
    rw [hni]
    simp [lookupName, h2, h3]
  · intro x
    unfold DepGraph.get_dependencies
    rw [hni, hrel]
    simp [lookupName, memOk, or_comm]

/-- Witness for the amended C4 at three concretely named nodes. -/
theorem C4_transitive_registration_witness :
    nodeX0.name ≠ nodeY2.name ∧ nodeX0.name ≠ nodeZ3.name ∧
    nodeY2.name ≠ nodeZ3.name ∧
    (DepGraph.empty.add_node nodeX0 [nodeY2, nodeZ3]).get_by_name
      nodeY2.name = Except.ok nodeY2 :=
  ⟨by decide, by decide, by decide,
   (C4_transitive_registration nodeX0 nodeY2 nodeZ3
     (by decide) (by decide) (by decide)).2.1⟩
